import Mathlib

/-!
Verification of the quizzzy backend (FastAPI app in `app/main.py`, auth gate in
`app/auth.py`) against its natural-language specification.

The Python handlers are shallowly embedded as pure Lean functions.  Fallible
code (Python exceptions) is embedded with `Except String`; the Firestore state
touched by the pipeline is threaded explicitly.  External collaborators that
are imported by `main.py` but whose sources are not part of the two files under
verification (the NLP models, the translator, the `FirebaseService` methods)
are embedded as explicit function parameters or as definitions modelled from
the specification; each such definition says so in its doc comment.
-/

/- ===================== Data model ===================== -/

/-- One entry of a question's `rating` list: the dict
`{'uid': ..., 'rate': ...}` built in `rate_questions` (`main.py`). -/
structure RatingEntry where
  uid : String
  rate : Int
deriving Repr, DecidableEq

/-- A question record as consumed by the export / duplicate endpoints:
the dict keys `text`, `choices`, `correct_choice` used in
`export_questions`, `create_moodle_xml` and
`get_duplicate_questions_answers` (`main.py`). -/
structure Question where
  text : String
  choices : List String
  correct_choice : String
deriving Repr, DecidableEq

/- ===================== C3: rating aggregation ===================== -/

/-- A stored question document as far as `rate_questions` reads and writes it:
the `rating` list and the derived `average_rating` field. -/
structure StoredQuestion where
  rating : List RatingEntry
  average_rating : Rat
deriving Repr, DecidableEq

/-- The loop in `rate_questions` (`main.py` lines 345-358): walk `ratings`,
overwrite `rate` of the first entry whose `uid` matches (and stop), and if no
entry matches append `{'uid': ..., 'rate': ...}` at the end. -/
def updateRatings : List RatingEntry → String → Int → List RatingEntry
  | [], u, r => [⟨u, r⟩]
  | e :: es, u, r =>
      if e.uid = u then ⟨u, r⟩ :: es
      else e :: updateRatings es u r

/-- `sum(r['rate'] for r in ratings) / len(ratings) if ratings else 0`
(`main.py` line 364), with Python's true division read over `Rat`. -/
def average_of (l : List RatingEntry) : Rat :=
  if l.isEmpty then 0 else (l.map (fun e => (e.rate : Rat))).sum / (l.length : Rat)

/-- The body of the `rate_questions` handler (`main.py` lines 333-379) acting
on the addressed document: a missing document raises
`ValueError("Question not found")` (surfaced as a 400); otherwise the rating
list is updated by the loop above and `average_rating` is recomputed. -/
def rate_questions (doc : Option StoredQuestion) (ruid : String) (r : Int) :
    Except String StoredQuestion :=
  match doc with
  | none => .error "Question not found"
  | some d =>
      let rats := updateRatings d.rating ruid r
      .ok { rating := rats, average_rating := average_of rats }

/- ===================== C4: duplicate detection ===================== -/

/-- An element of the `duplicate_questions` response list:
`{'question': ..., 'position1': idx1, 'position2': idx2}`. -/
structure DupQuestionEntry where
  question : String
  position1 : Nat
  position2 : Nat
deriving Repr, DecidableEq

/-- An element of the `duplicate_answers` response list:
`{'answer': ans1, 'position1': idx1, 'position2': idx2}`. -/
structure DupAnswerEntry where
  answer : String
  position1 : Nat
  position2 : Nat
deriving Repr, DecidableEq

/-- The inner loop of `get_duplicate_questions_answers` (`main.py`
lines 319-326): `q1` sits at index `i`, `l` are the questions from index `j`
on; one duplicate-question entry is appended when the texts are equal, and one
duplicate-answer entry is appended for every `ans1` in `q1['choices']` that
also occurs in `q2['choices']`. -/
def dupInner (i : Nat) (q1 : Question) :
    Nat → List Question → List DupQuestionEntry × List DupAnswerEntry
  | _, [] => ([], [])
  | j, q2 :: rest =>
      ((if q1.text = q2.text then [⟨q1.text, i, j⟩] else []) ++
          (dupInner i q1 (j + 1) rest).1,
       ((q1.choices.filter fun a => q2.choices.contains a).map
          fun a => (⟨a, i, j⟩ : DupAnswerEntry)) ++
          (dupInner i q1 (j + 1) rest).2)

/-- The outer loop of `get_duplicate_questions_answers` (`main.py`
lines 318-326): `l` are the questions from index `i` on; each head is compared
against all later questions. -/
def dupOuter : Nat → List Question → List DupQuestionEntry × List DupAnswerEntry
  | _, [] => ([], [])
  | i, q1 :: rest =>
      ((dupInner i q1 (i + 1) rest).1 ++ (dupOuter (i + 1) rest).1,
       (dupInner i q1 (i + 1) rest).2 ++ (dupOuter (i + 1) rest).2)

/-- The `get_duplicate_questions_answers` handler body (`main.py`
lines 306-331) applied to the fetched question list. -/
def get_duplicate_questions_answers (questions : List Question) :
    List DupQuestionEntry × List DupAnswerEntry :=
  dupOuter 0 questions

/-- Concrete question set of the spec scenario for duplicate detection:
identical texts at positions 0 and 2, all choices disjoint. -/
def dupScenario : List Question :=
  [⟨"What is X?", ["a1", "a2", "a3", "a4"], "a1"⟩,
   ⟨"Other question", ["b1", "b2", "b3", "b4"], "b1"⟩,
   ⟨"What is X?", ["c1", "c2", "c3", "c4"], "c1"⟩]

/-- Concrete question set refuting the per-pair shared-answer count of C4:
question 0 contains the choice "x" twice. -/
def dupCexQs : List Question :=
  [⟨"A", ["x", "x", "y", "z"], "x"⟩, ⟨"B", ["x", "p", "q", "r"], "x"⟩]

/- ===================== C6/C7: Aiken export ===================== -/

/-- `chr(65 + idx)` (`main.py` lines 264 and 266). -/
def positionLetter (idx : Nat) : Char := Char.ofNat (65 + idx)

/-- Python `list.index`: the index of the first occurrence of `x`, `none`
standing for the `ValueError` raised when `x` is absent — used at
`main.py` line 265. -/
def pyIndex (x : String) : List String → Option Nat
  | [] => none
  | y :: ys => if y = x then some 0 else (pyIndex x ys).map (fun n => n + 1)

/-- The `for idx, answer in enumerate(question['choices'])` loop of
`export_questions` (`main.py` lines 263-264), entered with position `idx`:
one line per choice, prefixed by its position letter. -/
def choiceLines (idx : Nat) : List String → String
  | [] => ""
  | a :: rest =>
      String.singleton (positionLetter idx) ++ ". " ++ a ++ "\n" ++
        choiceLines (idx + 1) rest

/-- The Aiken serialization loop of `export_questions` (`main.py`
lines 259-267): per question append the stem line, the lettered choice lines
and the `ANSWER:` line followed by a blank separator line; `list.index`
raises `ValueError` when `correct_choice` is not among the choices, aborting
the whole export. -/
def export_questions_aiken : List Question → Except String String
  | [] => .ok ""
  | q :: rest =>
      match pyIndex q.correct_choice q.choices with
      | none => .error "ValueError: correct_choice is not in choices"
      | some idx =>
          match export_questions_aiken rest with
          | .error e => .error e
          | .ok tail =>
              .ok (q.text ++ "\n" ++ choiceLines 0 q.choices ++ "ANSWER: " ++
                String.singleton (positionLetter idx) ++ "\n\n" ++ tail)

/-- Render a list of lines, each line terminated by a newline character. -/
def joinLines : List String → String
  | [] => ""
  | s :: rest => s ++ "\n" ++ joinLines rest

/-- The Aiken block of one question as the specification words it: the stem
line, then one line per choice prefixed by the letter assigned to its position
in the `choices` array (no sorting), then an `ANSWER:` line holding the
position letter of index `answerIdx`, then a blank separator line. -/
def aikenLinesSpec (q : Question) (answerIdx : Nat) : List String :=
  [q.text] ++
    (List.range q.choices.length).map
      (fun k => String.singleton (positionLetter k) ++ ". " ++
        q.choices.getD k "") ++
    ["ANSWER: " ++ String.singleton (positionLetter answerIdx), ""]

/-- Specification side of the Aiken export: the ordered concatenation of the
per-question blocks, the answer index being the first index at which
`correct_choice` occurs. -/
def aikenSpec : List Question → String
  | [] => ""
  | q :: rest =>
      joinLines (aikenLinesSpec q ((pyIndex q.correct_choice q.choices).getD 0))
        ++ aikenSpec rest

/-- Reading a position letter back to an index, as the round-trip claim
reparses the `ANSWER:` line of the Aiken output. -/
def letterIndex (c : Char) : Nat := c.toNat - 65

/- ===================== C8: Moodle XML export ===================== -/

/-- An `xml.etree.ElementTree` element: tag, attribute list (insertion
order), optional text, children (insertion order).  The trees built by
`create_moodle_xml` carry no tail text, so none is modelled. -/
inductive XNode where
  | elem (tag : String) (attrs : List (String × String)) (text : Option String)
      (children : List XNode)
deriving Repr

def XNode.tag : XNode → String
  | .elem t _ _ _ => t

def XNode.attrs : XNode → List (String × String)
  | .elem _ a _ _ => a

def XNode.innerText : XNode → Option String
  | .elem _ _ s _ => s

def XNode.children : XNode → List XNode
  | .elem _ _ _ c => c

/-- `ElementTree`'s text escaping (`_escape_cdata`), character-wise: `&`, `<`
and `>` become entities.  The character-wise form agrees with the three
sequential `str.replace` calls because no replacement string contains a
character that a later replace rewrites. -/
def escapeChars : List Char → List Char
  | [] => []
  | c :: rest =>
      (if c = '&' then "&amp;".data
       else if c = '<' then "&lt;".data
       else if c = '>' then "&gt;".data
       else [c]) ++ escapeChars rest

/-- `_escape_cdata` lifted to `String`. -/
def escape_cdata (s : String) : String := ⟨escapeChars s.data⟩

/-- `ElementTree`'s attribute escaping (`_escape_attrib`), character-wise on
the characters occurring in this document's attributes: additionally `"`
becomes an entity. -/
def escapeAttrChars : List Char → List Char
  | [] => []
  | c :: rest =>
      (if c = '&' then "&amp;".data
       else if c = '<' then "&lt;".data
       else if c = '>' then "&gt;".data
       else if c = '"' then "&quot;".data
       else [c]) ++ escapeAttrChars rest

/-- `_escape_attrib` lifted to `String`. -/
def escape_attrib (s : String) : String := ⟨escapeAttrChars s.data⟩

/-- Attribute rendering of `ET.tostring`: a space, the key, `="`, the escaped
value and a closing quote, in insertion order. -/
def attrsString : List (String × String) → String
  | [] => ""
  | (k, v) :: rest =>
      " " ++ k ++ "=\"" ++ escape_attrib v ++ "\"" ++ attrsString rest

mutual

/-- `ET.tostring(..., encoding='unicode')`: an element with no text and no
children serializes as `<tag attrs />`; otherwise an open tag, the escaped
text, the serialized children and the matching closing tag. -/
def xmlToString : XNode → String
  | .elem tag attrs text children =>
      match text, children with
      | none, [] => "<" ++ tag ++ attrsString attrs ++ " />"
      | _, _ =>
          "<" ++ tag ++ attrsString attrs ++ ">" ++
            (match text with | none => "" | some s => escape_cdata s) ++
            xmlListToString children ++ "</" ++ tag ++ ">"

/-- Serialization of a child list, in order. -/
def xmlListToString : List XNode → String
  | [] => ""
  | x :: rest => xmlToString x ++ xmlListToString rest

end

/-- `create_moodle_xml` (`main.py` lines 136-170): the `<quiz>` element tree
with one `<question type="multichoice">` per question, mirroring the
`ET.SubElement` calls in source order. -/
def create_moodle_xml (questions : List Question) : XNode :=
  XNode.elem "quiz" [] none (questions.map fun question =>
    XNode.elem "question" [("type", "multichoice")] none (
      [XNode.elem "name" [] none
         [XNode.elem "text" [] (some question.text) []],
       XNode.elem "questiontext" [("format", "html")] none
         [XNode.elem "text" []
            (some ("<![CDATA[" ++ question.text ++ "]]>")) []]] ++
      question.choices.map fun answer =>
        XNode.elem "answer"
          [("fraction",
            if answer = question.correct_choice then "100" else "0")]
          none
          [XNode.elem "text" [] (some answer) [],
           XNode.elem "feedback" [] none
             [XNode.elem "text" []
                (some (if answer = question.correct_choice then "Correct!"
                  else "Incorrect.")) []]]))

/-- One `<answer>` element as the specification words it: fraction "100"
exactly for the entry equal to `correct`, "0" otherwise, with a feedback of
"Correct!" or "Incorrect." accordingly, the answer string as its text. -/
def moodleAnswerSpec (correct : String) (answer : String) : XNode :=
  XNode.elem "answer"
    [("fraction", if answer = correct then "100" else "0")] none
    [XNode.elem "text" [] (some answer) [],
     XNode.elem "feedback" [] none
       [XNode.elem "text" []
          (some (if answer = correct then "Correct!" else "Incorrect.")) []]]

/-- One `<question type="multichoice">` element as the specification words
it: a `<name>`, a `<questiontext format="html">` wrapping the stem in a
CDATA-equivalent escape, and one `<answer>` per choice in order. -/
def moodleQuestionSpec (q : Question) : XNode :=
  XNode.elem "question" [("type", "multichoice")] none
    ([XNode.elem "name" [] none [XNode.elem "text" [] (some q.text) []],
      XNode.elem "questiontext" [("format", "html")] none
        [XNode.elem "text" []
           (some ("<![CDATA[" ++ q.text ++ "]]>")) []]] ++
     q.choices.map (moodleAnswerSpec q.correct_choice))

/-- The string the `export-questions-moodle` endpoint writes:
`ET.tostring(quiz, encoding='unicode')` (`main.py` line 169). -/
def moodle_xml_output (questions : List Question) : String :=
  xmlToString (create_moodle_xml questions)

/- ===================== C9/C10: keyword search ===================== -/

deriving instance DecidableEq for Except

/-- Python's case folding `str.lower()`, character-wise. -/
def lowerStr (s : String) : String := ⟨s.data.map Char.toLower⟩

/-- Does `hay` start with `needle`? (helper for Python's `in`). -/
def startsWithChars : List Char → List Char → Bool
  | _, [] => true
  | [], _ :: _ => false
  | h :: hs, n :: ns => h == n && startsWithChars hs ns

/-- Python's substring test `needle in hay` on character lists. -/
def hasSubChars : List Char → List Char → Bool
  | [], needle => needle.isEmpty
  | c :: t, needle => startsWithChars (c :: t) needle || hasSubChars t needle

/-- Python `needle in hay` on strings (`main.py` line 439 applies it to the
lowered keyword and the lowered question text). -/
def containsSubstring (hay needle : String) : Bool :=
  hasSubChars hay.data needle.data

/-- A question document as `search_questions` reads it (`main.py`
lines 437-451): `Option` fields model the Python `KeyError` raised when a
dict key is missing; `all_ans` is the answers dict keyed by decimal
strings. -/
structure QDoc where
  id : String
  question : Option String
  crct_ans : Option String
  all_ans : List (String × String)
  rating : Option (List RatingEntry)
deriving Repr, DecidableEq

/-- One of a user's question collections (`collections()` enumeration). -/
structure QCollection where
  id : String
  docs : List QDoc
deriving Repr, DecidableEq

/-- One user document together with its collections (`stream()`). -/
structure UserDoc where
  id : String
  collections : List QCollection
deriving Repr, DecidableEq

/-- The `users` collection in enumeration order. -/
abbrev Store : Type := List UserDoc

/-- One element of the `matching_questions` response (`main.py`
lines 440-453); `rating` is `none` when the key is omitted. -/
structure SearchMatch where
  user_id : String
  collection_id : String
  id : String
  text : String
  choices : List String
  correct_choice : String
  rating : Option (List RatingEntry)
deriving Repr, DecidableEq

/-- Python dict access `d[k]`: `none` models the `KeyError` when missing. -/
def dictGet (k : String) : List (String × String) → Option String
  | [] => none
  | (k2, v) :: rest => if k2 = k then some v else dictGet k rest

/-- The per-document body of `search_questions` (`main.py` lines 437-453):
`data['question']` is read unconditionally; when the lowered keyword occurs
in the lowered text the result dict is built, reading `all_ans['0']..['3']`
and then `crct_ans` — a missing key raises (`Except.error`) — and the
`rating` field is attached only when present and non-empty. -/
def searchDoc (keyword user_id collection_id : String) (d : QDoc) :
    Except String (Option SearchMatch) :=
  match d.question with
  | none => .error "KeyError: question"
  | some qtext =>
      if containsSubstring (lowerStr qtext) (lowerStr keyword) then
        match dictGet "0" d.all_ans, dictGet "1" d.all_ans,
            dictGet "2" d.all_ans, dictGet "3" d.all_ans with
        | some a0, some a1, some a2, some a3 =>
            match d.crct_ans with
            | none => .error "KeyError: crct_ans"
            | some crct =>
                .ok (some
                  { user_id := user_id, collection_id := collection_id,
                    id := d.id, text := qtext,
                    choices := [a0, a1, a2, a3], correct_choice := crct,
                    rating := match d.rating with
                      | some (r :: rs) => some (r :: rs)
                      | _ => none })
        | _, _, _, _ => .error "KeyError: all_ans"
      else .ok none

/-- The innermost `for doc in documents` loop of `search_questions`. -/
def searchDocs (keyword uid cid : String) :
    List QDoc → Except String (List SearchMatch)
  | [] => .ok []
  | d :: rest =>
      match searchDoc keyword uid cid d with
      | .error e => .error e
      | .ok none => searchDocs keyword uid cid rest
      | .ok (some m) =>
          match searchDocs keyword uid cid rest with
          | .error e => .error e
          | .ok ms => .ok (m :: ms)

/-- The `for collection in question_collections` loop of
`search_questions`. -/
def searchCollections (keyword uid : String) :
    List QCollection → Except String (List SearchMatch)
  | [] => .ok []
  | c :: rest =>
      match searchDocs keyword uid c.id c.docs with
      | .error e => .error e
      | .ok ms =>
          match searchCollections keyword uid rest with
          | .error e => .error e
          | .ok more => .ok (ms ++ more)

/-- The `for user in users` loop of `search_questions`. -/
def searchUsers (keyword : String) :
    List UserDoc → Except String (List SearchMatch)
  | [] => .ok []
  | u :: rest =>
      match searchCollections keyword u.id u.collections with
      | .error e => .error e
      | .ok ms =>
          match searchUsers keyword rest with
          | .error e => .error e
          | .ok more => .ok (ms ++ more)

/-- The `search_questions` handler (`main.py` lines 415-461): a full scan of
every user, collection and document; any exception anywhere is caught by the
blanket `except Exception` and surfaced as a 500 "Internal Server Error",
returning no matches at all. -/
def search_questions (keyword : String) (store : Store) :
    Except String (List SearchMatch) :=
  match searchUsers keyword store with
  | .error _ => .error "Internal Server Error"
  | .ok ms => .ok ms

/-- Specification side of the per-document filter, following §4.6: a match is
reported exactly when the lowered keyword occurs in the lowered text, with
owner, collection and document ids, the four choices, the correct choice, and
the rating only when present and non-empty. -/
def specDocFn (keyword uid cid : String) (d : QDoc) : Option SearchMatch :=
  match d.question, d.crct_ans with
  | some qtext, some crct =>
      if containsSubstring (lowerStr qtext) (lowerStr keyword) then
        match dictGet "0" d.all_ans, dictGet "1" d.all_ans,
            dictGet "2" d.all_ans, dictGet "3" d.all_ans with
        | some a0, some a1, some a2, some a3 =>
            some { user_id := uid, collection_id := cid, id := d.id,
                   text := qtext, choices := [a0, a1, a2, a3],
                   correct_choice := crct,
                   rating := match d.rating with
                     | some (r :: rs) => some (r :: rs)
                     | _ => none }
        | _, _, _, _ => none
      else none
  | _, _ => none

/-- Specification side of the whole search: every document of every
collection of every user, in store enumeration order. -/
def searchSpec (keyword : String) (store : Store) : List SearchMatch :=
  store.flatMap fun u => u.collections.flatMap fun c =>
    c.docs.filterMap (specDocFn keyword u.id c.id)

/-- The document schema `search_questions` relies on (claim C10): a
`question` field, a `crct_ans` field and an `all_ans` mapping with the keys
"0" through "3". -/
def WellFormedDoc (d : QDoc) : Prop :=
  d.question.isSome ∧ d.crct_ans.isSome ∧
    (dictGet "0" d.all_ans).isSome ∧ (dictGet "1" d.all_ans).isSome ∧
    (dictGet "2" d.all_ans).isSome ∧ (dictGet "3" d.all_ans).isSome

instance (d : QDoc) : Decidable (WellFormedDoc d) := by
  unfold WellFormedDoc
  infer_instance

/-- A well-formed store for the search witnesses: one user, one topic, a
document matching "water" case-insensitively with a non-empty rating, and a
non-matching document. -/
def goodStore : Store :=
  [⟨"u1", [⟨"chemistry",
      [⟨"q1", some "What is Water made of?", some "H2O",
         [("0", "H2O"), ("1", "CO2"), ("2", "O2"), ("3", "N2")],
         some [⟨"u2", 4⟩]⟩,
       ⟨"q2", some "Pick a color", some "red",
         [("0", "red"), ("1", "green"), ("2", "blue"), ("3", "cyan")],
         some []⟩]⟩]⟩]

/-- A store violating the schema: the second document lacks `crct_ans` while
its text matches the keyword "water"; the first document is well formed and
matching. -/
def malformedStore : Store :=
  [⟨"u1", [⟨"chemistry",
      [⟨"qgood", some "What is water?", some "H2O",
         [("0", "H2O"), ("1", "CO2"), ("2", "O2"), ("3", "N2")], none⟩,
       ⟨"qbad", some "Where does water come from?", none,
         [("0", "a"), ("1", "b"), ("2", "c"), ("3", "d")], none⟩]⟩]⟩]

/- ===================== C1: auth gate and endpoint routing ============== -/

/-- The credential `HTTPBearer` extracts from the `Authorization` header:
a scheme and the token string (`auth.py` line 11). -/
structure HTTPCred where
  scheme : String
  credentials : String
deriving Repr, DecidableEq

/-- The outcome of dispatching a request: either rejected by the dependency
layer with an HTTP status and detail before the handler body runs, or the
handler body runs. -/
inductive HandlerOutcome where
  | rejected (status : Nat) (detail : String)
  | bodyRan
deriving Repr, DecidableEq

/-- `JWTBearer.__call__` (`auth.py` lines 10-19): absence of a credential, a
non-Bearer scheme, or a token failing verification each raise a 403;
otherwise the token is returned.  `verify_jwt`'s own 403s for expired and
invalid tokens are folded into the `false` case of the abstract verifier. -/
def jwt_bearer (verify_jwt : String → Bool) (c : Option HTTPCred) :
    Except (Nat × String) String :=
  match c with
  | some cred =>
      if cred.scheme ≠ "Bearer" then
        .error (403, "Invalid authentication scheme.")
      else if ¬ verify_jwt cred.credentials then
        .error (403, "Invalid token or expired token.")
      else .ok cred.credentials
  | none => .error (403, "Invalid authorization code.")

/-- Which endpoint of `main.py` declares `token: str = Depends(auth_scheme)`
in its handler signature, read off the handler definitions (lines 177, 213,
245, 280, 307, 334, 383, 416, 464, 477, 501): the two export endpoints do
not declare the dependency. -/
def endpointRequiresAuth (ep : String) : Bool :=
  match ep with
  | "get-question" => true
  | "get-questions" => true
  | "export-questions" => false
  | "export-questions-moodle" => false
  | "duplicate-questions-answers" => true
  | "rating-questions" => true
  | "comment-questions" => true
  | "search-questions" => true
  | "delete-question" => true
  | "register" => false
  | "login" => false
  | _ => false

/-- FastAPI's dependency resolution: a handler that declares the
`auth_scheme` dependency runs its body only after `JWTBearer.__call__`
succeeds; a handler without the dependency runs its body unconditionally. -/
def dispatch (verify_jwt : String → Bool) (ep : String)
    (c : Option HTTPCred) : HandlerOutcome :=
  if endpointRequiresAuth ep then
    match jwt_bearer verify_jwt c with
    | .error (s, d) => .rejected s d
    | .ok _ => .bodyRan
  else .bodyRan

/- ===================== C2/C5: generation pipeline ===================== -/

/-- The request body `ModelInput` (`main.py` lines 87-91). -/
structure ModelInput where
  context : String
  uid : String
  name : String
deriving Repr, DecidableEq

/-- The per-topic state the pipeline reads and writes. -/
structure TopicState where
  generationInProgress : Bool
  questions : List Question
deriving Repr, DecidableEq

/-- The Firestore state visible to the pipeline, keyed by `(uid, topic)`. -/
def FS : Type := String × String → TopicState

/-- Modelled from the spec: `FirebaseService.update_generated_status` (the
`src/service/firebase_service.py` module is not among the files under
`src/`) sets the topic's `generationInProgress` flag and persists it
immediately (§4.1 steps 2 and 8). -/
def update_generated_status (req : ModelInput) (b : Bool) (fs : FS) : FS :=
  fun k =>
    if k = (req.uid, req.name) then
      { fs k with generationInProgress := b }
    else fs k

/-- The external collaborators `main.py` imports whose sources are not among
the files under `src/` (the translator, the inference helpers, the store
write), each a black-box function that may fail — `Except.error` standing
for a raised exception.  `send_results_to_fs` is the missing
`FirebaseService` method: it receives the translated request, the generated
questions, correct answers, false-answer lists and the context, writes to
the store and returns the assembled result (§4.1 steps 7-8); a failing call
is modelled as leaving the store unchanged. -/
structure Models where
  translate : String → Except String String
  get_all_summary : String → Except String (List String × List String)
  get_keywords : List String → List String → Except String (List String)
  get_output : List String → Except String (List String × List (List String))
  get_all_questions : List String → List String → Except String (List String)
  send_results_to_fs : ModelInput → List String → List String →
    List (List String) → String → FS → Except String (List Question × FS)

/-- `generate_que_n_ans` (`main.py` lines 45-64): summary and sentence
decomposition, keyword extraction, false-answer generation, question
generation; the first failing step aborts. -/
def generate_que_n_ans (m : Models) (context : String) :
    Except String (List String × List String × List (List String)) :=
  match m.get_all_summary context with
  | .error e => .error e
  | .ok (summary, splitted_text) =>
      match m.get_keywords splitted_text summary with
      | .error e => .error e
      | .ok filtered_kws =>
          match m.get_output filtered_kws with
          | .error e => .error e
          | .ok (crct_ans, all_answers) =>
              match m.get_all_questions summary crct_ans with
              | .error e => .error e
              | .ok questions => .ok (questions, crct_ans, all_answers)

/-- `process_request` (`main.py` lines 67-82): translate context and name,
set the in-progress flag, generate, clear the flag, send the results; there
is no `try`/`finally`, so an exception leaves the flag as last written. -/
def process_request (m : Models) (request : ModelInput) (fs : FS) :
    Except String (List Question) × FS :=
  match m.translate request.context with
  | .error e => (.error e, fs)
  | .ok ctx =>
      match m.translate request.name with
      | .error e => (.error e, fs)
      | .ok nm =>
          let req2 : ModelInput :=
            { context := ctx, uid := request.uid, name := nm }
          let fs1 := update_generated_status req2 true fs
          match generate_que_n_ans m req2.context with
          | .error e => (.error e, fs1)
          | .ok (questions, crct_ans, all_ans) =>
              let fs2 := update_generated_status req2 false fs1
              match m.send_results_to_fs req2 questions crct_ans all_ans
                  req2.context fs2 with
              | .error e => (.error e, fs2)
              | .ok (results, fs3) => (.ok results, fs3)

/-- The character class of `re.split(r'[.!?]', ...)` (`main.py` line 227). -/
def isSentenceDelim (c : Char) : Bool := c = '.' || c = '!' || c = '?'

/-- `re.split` on a single-character class, character-wise: consecutive
delimiters yield empty fragments, as in Python. -/
def splitChars (p : Char → Bool) : List Char → List (List Char)
  | [] => [[]]
  | c :: rest =>
      if p c then [] :: splitChars p rest
      else
        match splitChars p rest with
        | [] => [[c]]
        | g :: gs => (c :: g) :: gs

/-- Python `str.strip()`: drop leading and trailing whitespace. -/
def trimChars (l : List Char) : List Char :=
  ((l.dropWhile (fun c => c.isWhitespace)).reverse.dropWhile
      (fun c => c.isWhitespace)).reverse

/-- `str.strip()` lifted to `String`. -/
def pyStrip (s : String) : String := ⟨trimChars s.data⟩

/-- `re.split(r'[.!?]', context)` (`main.py` line 230). -/
def splitOnDelims (s : String) : List String :=
  (splitChars isSentenceDelim s.data).map (fun l => (⟨l⟩ : String))

/-- The sentence preprocessing of `get_questions` (`main.py` lines 227-233):
split on `.`, `!`, `?`, strip each fragment, keep only the non-empty
results. -/
def splitSentences (context : String) : List String :=
  ((splitOnDelims context).map pyStrip).filter (fun s => s ≠ "")

/-- The per-sentence loop of `get_questions` (`main.py` lines 236-238): one
`process_request` call per fragment, sequentially in fragment order, each
result appended to `results`; an exception aborts the whole request. -/
def runSentences (m : Models) (uid nm : String) :
    List String → FS → Except String (List (List Question)) × FS
  | [], fs => (.ok [], fs)
  | s :: rest, fs =>
      match process_request m ⟨s, uid, nm⟩ fs with
      | (.error e, fs2) => (.error e, fs2)
      | (.ok r, fs2) =>
          match runSentences m uid nm rest fs2 with
          | (.error e, fs3) => (.error e, fs3)
          | (.ok rs, fs3) => (.ok (r :: rs), fs3)

/-- The `get_questions` handler (`main.py` lines 212-242): split the context
into sentences and run the pipeline once per fragment, returning the list of
per-run results — one element per run. -/
def get_questions (m : Models) (request : ModelInput) (fs : FS) :
    Except String (List (List Question)) × FS :=
  runSentences m request.uid request.name
    (splitSentences request.context) fs

/-- Collaborators whose summarizer raises, for the C2 counterexample; the
later steps never run. -/
def failingModels : Models :=
  { translate := fun s => .ok s,
    get_all_summary := fun _ => .error "model failure",
    get_keywords := fun _ _ => .ok [],
    get_output := fun _ => .ok ([], []),
    get_all_questions := fun _ _ => .ok [],
    send_results_to_fs := fun _ _ _ _ _ fs => .ok ([], fs) }

/-- Modelled from the spec: a deterministic success instance of the
collaborators — the summary is the fragment itself, the keywords are its
whitespace-separated words, one `(correctAnswer, distractors)` pair per
keyword, one stem per pair, and `send_results_to_fs` assembles
stem/choices/correct records (§4.1 step 7) and persists them under the
topic. -/
def splitWords (s : String) : List String :=
  ((splitChars (fun c => c = ' ') s.data).map
      (fun l => (⟨l⟩ : String))).filter (fun w => w ≠ "")

/-- Modelled from the spec: `FirebaseService.send_results_to_fs` assembling
one Question per generated stem with its four choices and correct answer and
appending them under `(uid, name)`. -/
def okSend : ModelInput → List String → List String → List (List String) →
    String → FS → Except String (List Question × FS) :=
  fun req questions crct_ans all_ans _ctx fs =>
    let qlist := (questions.zip (crct_ans.zip all_ans)).map
      (fun p => { text := p.1, choices := p.2.2,
                  correct_choice := p.2.1 : Question })
    .ok (qlist,
      fun k =>
        if k = (req.uid, req.name) then
          { fs k with questions := (fs k).questions ++ qlist }
        else fs k)

/-- Concrete collaborators for the C5 scenarios. -/
def scenarioModels : Models :=
  { translate := fun s => .ok s,
    get_all_summary := fun s => .ok ([s], splitWords s),
    get_keywords := fun orig _ => .ok orig,
    get_output := fun kws =>
      .ok (kws, kws.map (fun k => [k, "w1", "w2", "w3"])),
    get_all_questions := fun _ crct => .ok (crct.map (fun a => "Q:" ++ a)),
    send_results_to_fs := okSend }

/-- The empty store: no topic in progress, no questions. -/
def fs0 : FS := fun _ => { generationInProgress := false, questions := [] }

/-- Output of the first scenario run (fragment "The sky is blue") under
`scenarioModels`. -/
def c5run1 : List Question :=
  [⟨"Q:The", ["The", "w1", "w2", "w3"], "The"⟩,
   ⟨"Q:sky", ["sky", "w1", "w2", "w3"], "sky"⟩,
   ⟨"Q:is", ["is", "w1", "w2", "w3"], "is"⟩,
   ⟨"Q:blue", ["blue", "w1", "w2", "w3"], "blue"⟩]

/-- Output of the second scenario run (fragment
"Water boils at 100 degrees") under `scenarioModels`. -/
def c5run2 : List Question :=
  [⟨"Q:Water", ["Water", "w1", "w2", "w3"], "Water"⟩,
   ⟨"Q:boils", ["boils", "w1", "w2", "w3"], "boils"⟩,
   ⟨"Q:at", ["at", "w1", "w2", "w3"], "at"⟩,
   ⟨"Q:100", ["100", "w1", "w2", "w3"], "100"⟩,
   ⟨"Q:degrees", ["degrees", "w1", "w2", "w3"], "degrees"⟩]

/- ===================== Theorems start below ===================== -/

theorem updateRatings_mem (l : List RatingEntry) (u : String) (r : Int) :
    ∀ e ∈ updateRatings l u r, e.uid = u ∨ e ∈ l := by
  induction l with
  | nil =>
      intro e he
      simp [updateRatings] at he
      subst he; left; rfl
  | cons a t ih =>
      intro e he
      by_cases h : a.uid = u
      · simp [updateRatings, h] at he
        rcases he with he | he
        · subst he; left; rfl
        · right; exact List.mem_cons_of_mem _ he
      · simp [updateRatings, h] at he
        rcases he with he | he
        · right; simp [he]
        · rcases ih e he with h1 | h1
          · left; exact h1
          · right; exact List.mem_cons_of_mem _ h1

theorem updateRatings_append (l : List RatingEntry) (u : String) (r : Int)
    (h : ∀ e ∈ l, e.uid ≠ u) :
    updateRatings l u r = l ++ [⟨u, r⟩] := by
  induction l with
  | nil => rfl
  | cons a t ih =>
      have ha : a.uid ≠ u := h a (by simp)
      simp [updateRatings, ha]
      exact ih (fun e he => h e (List.mem_cons_of_mem _ he))

theorem updateRatings_set (l : List RatingEntry) (u : String) (r : Int)
    (huniq : l.Pairwise (fun a b => a.uid ≠ b.uid)) :
    ∀ i (hi : i < l.length), (l.get ⟨i, hi⟩).uid = u →
      updateRatings l u r = l.set i ⟨u, r⟩ := by
  induction l with
  | nil => intro i hi; simp at hi
  | cons a t ih =>
      intro i hi hget
      cases i with
      | zero =>
          simp at hget
          simp [updateRatings, hget]
      | succ n =>
          have hn : n < t.length := by simpa using hi
          have hget2 : (t.get ⟨n, hn⟩).uid = u := by simpa using hget
          have ha : a.uid ≠ u := by
            have hhead := (List.pairwise_cons.mp huniq).1
            have := hhead _ (List.get_mem t n hn)
            rw [hget2] at this
            exact this
          simp [updateRatings, ha]
          exact ih (List.pairwise_cons.mp huniq).2 n hn hget2

theorem updateRatings_count (l : List RatingEntry) (u : String) (r : Int)
    (huniq : l.Pairwise (fun a b => a.uid ≠ b.uid)) :
    (updateRatings l u r).countP (fun e => e.uid == u) = 1 ∧
    (∀ e ∈ updateRatings l u r, e.uid = u → e.rate = r) ∧
    (updateRatings l u r).Pairwise (fun a b => a.uid ≠ b.uid) := by
  induction l with
  | nil =>
      refine ⟨by simp [updateRatings], ?_, by simp [updateRatings]⟩
      intro e he
      simp [updateRatings] at he
      subst he; intro; rfl
  | cons a t ih =>
      obtain ⟨hhead, htail⟩ := List.pairwise_cons.mp huniq
      by_cases h : a.uid = u
      · have hzero : ∀ e ∈ t, e.uid ≠ u := by
          intro e he heq
          exact hhead e he (h.trans heq.symm)
        refine ⟨?_, ?_, ?_⟩
        · simp only [updateRatings, h, if_pos]
          rw [List.countP_cons]
          simp only [beq_self_eq_true, if_pos]
          have : t.countP (fun e => e.uid == u) = 0 := by
            rw [List.countP_eq_zero]
            intro e he
            simpa using hzero e he
          simp [this]
        · intro e he
          simp [updateRatings, h] at he
          rcases he with he | he
          · subst he; intro; rfl
          · intro heq; exact absurd heq (hzero e he)
        · simp only [updateRatings, h, if_pos]
          rw [List.pairwise_cons]
          refine ⟨?_, htail⟩
          intro b hb
          have := hhead b hb
          rw [h] at this
          exact this
      · obtain ⟨ihc, ihm, ihp⟩ := ih htail
        refine ⟨?_, ?_, ?_⟩
        · simp only [updateRatings, h, if_neg, not_false_iff]
          rw [List.countP_cons]
          have : (a.uid == u) = false := by simpa using h
          simp [this, ihc]
        · intro e he
          simp [updateRatings, h] at he
          rcases he with he | he
          · subst he; intro heq; exact absurd heq h
          · exact ihm e he
        · simp only [updateRatings, h, if_neg, not_false_iff]
          rw [List.pairwise_cons]
          refine ⟨?_, ihp⟩
          intro b hb
          rcases updateRatings_mem t u r b hb with h1 | h1
          · rw [h1]; exact h
          · exact hhead b h1

/-- C3: `rate(question, userId, rate)` overwrites the existing entry's rate in
place (position preserved) when an entry with that `userId` exists, otherwise
appends `{userId, rate}`; afterwards `averageRating` equals the arithmetic
mean of all rate values in the updated list; and rating twice with the same
user leaves exactly one entry for that user, holding the second value. -/
theorem rate_overwrites_and_averages (ratings : List RatingEntry) (u : String)
    (r1 r2 : Int) (huniq : ratings.Pairwise (fun a b => a.uid ≠ b.uid)) :
    ((∀ e ∈ ratings, e.uid ≠ u) →
        updateRatings ratings u r2 = ratings ++ [⟨u, r2⟩]) ∧
    (∀ i (hi : i < ratings.length), (ratings.get ⟨i, hi⟩).uid = u →
        updateRatings ratings u r2 = ratings.set i ⟨u, r2⟩) ∧
    (∀ d : StoredQuestion, d.rating = ratings →
        rate_questions (some d) u r2 =
          .ok { rating := updateRatings ratings u r2,
                average_rating := average_of (updateRatings ratings u r2) }) ∧
    ((updateRatings (updateRatings ratings u r1) u r2).countP
        (fun e => e.uid == u) = 1 ∧
      ∀ e ∈ updateRatings (updateRatings ratings u r1) u r2,
        e.uid = u → e.rate = r2) := by
  refine ⟨updateRatings_append ratings u r2, updateRatings_set ratings u r2 huniq,
    ?_, ?_⟩
  · intro d hd
    simp [rate_questions, hd]
  · obtain ⟨-, -, hp⟩ := updateRatings_count ratings u r1 huniq
    obtain ⟨hc, hm, -⟩ := updateRatings_count (updateRatings ratings u r1) u r2 hp
    exact ⟨hc, hm⟩

/-- Witness for C3 at a concrete input: one existing rater "alice", new rater
"bob" rates 1 then 5; exactly one entry for "bob" remains, with value 5. -/
theorem rate_overwrites_and_averages_witness :
    updateRatings (updateRatings [⟨"alice", 3⟩] "bob" 1) "bob" 5 =
      [⟨"alice", 3⟩, ⟨"bob", 5⟩] ∧
    (updateRatings (updateRatings [⟨"alice", 3⟩] "bob" 1) "bob" 5).countP
      (fun e => e.uid == "bob") = 1 := by
  have h := rate_overwrites_and_averages [⟨"alice", 3⟩] "bob" 1 5 (by simp)
  exact ⟨by decide, h.2.2.2.1⟩

theorem dupInner_fst_pos (i : Nat) (q1 : Question) :
    ∀ l j e, e ∈ (dupInner i q1 j l).1 → e.position1 = i ∧ j ≤ e.position2 := by
  intro l
  induction l with
  | nil => intro j e he; simp [dupInner] at he
  | cons q2 rest ih =>
      intro j e he
      by_cases ht : q1.text = q2.text
      · simp [dupInner, ht] at he
        rcases he with he | he
        · subst he; exact ⟨rfl, le_refl j⟩
        · obtain ⟨h1, h2⟩ := ih (j + 1) e he
          exact ⟨h1, le_trans (Nat.le_succ j) h2⟩
      · simp [dupInner, ht] at he
        obtain ⟨h1, h2⟩ := ih (j + 1) e he
        exact ⟨h1, le_trans (Nat.le_succ j) h2⟩

theorem dupInner_snd_pos (i : Nat) (q1 : Question) :
    ∀ l j e, e ∈ (dupInner i q1 j l).2 → e.position1 = i ∧ j ≤ e.position2 := by
  intro l
  induction l with
  | nil => intro j e he; simp [dupInner] at he
  | cons q2 rest ih =>
      intro j e he
      simp [dupInner] at he
      rcases he with ⟨a, -, he⟩ | he
      · subst he; exact ⟨rfl, le_refl j⟩
      · obtain ⟨h1, h2⟩ := ih (j + 1) e he
        exact ⟨h1, le_trans (Nat.le_succ j) h2⟩

theorem dupInner_countQ (i : Nat) (q1 : Question) :
    ∀ l j k (hk : k < l.length),
      (dupInner i q1 j l).1.countP
          (fun e => e.position1 == i && e.position2 == j + k) =
        if q1.text = (l.get ⟨k, hk⟩).text then 1 else 0 := by
  intro l
  induction l with
  | nil => intro j k hk; simp at hk
  | cons q2 rest ih =>
      intro j k hk
      cases k with
      | zero =>
          simp only [Nat.add_zero]
          have hget : ((q2 :: rest).get ⟨0, hk⟩) = q2 := rfl
          rw [hget]
          have hz : (dupInner i q1 (j + 1) rest).1.countP
              (fun e => e.position1 == i && e.position2 == j) = 0 := by
            rw [List.countP_eq_zero]
            intro e he
            have h2 := (dupInner_fst_pos i q1 rest (j + 1) e he).2
            simp only [Bool.and_eq_true, beq_iff_eq]
            rintro ⟨-, h3⟩
            omega
          by_cases ht : q1.text = q2.text
          · simp only [dupInner, List.countP_append, hz, Nat.add_zero]
            rw [if_pos ht, if_pos ht]
            simp
          · simp only [dupInner, List.countP_append, hz, Nat.add_zero]
            rw [if_neg ht, if_neg ht]
            simp
      | succ n =>
          have hn : n < rest.length := by simpa using hk
          have hget : ((q2 :: rest).get ⟨n + 1, hk⟩) = rest.get ⟨n, hn⟩ := by
            simp
          rw [hget]
          have harith : j + (n + 1) = (j + 1) + n := by omega
          rw [harith]
          have hih := ih (j + 1) n hn
          have hne : (j : Nat) ≠ j + 1 + n := by omega
          by_cases ht : q1.text = q2.text
          · simp only [dupInner, List.countP_append]
            rw [if_pos ht, hih]
            simp [hne]
          · simp only [dupInner, List.countP_append]
            rw [if_neg ht, hih]
            simp

theorem dupInner_countA (i : Nat) (q1 : Question) :
    ∀ l j k (hk : k < l.length),
      (dupInner i q1 j l).2.countP
          (fun e => e.position1 == i && e.position2 == j + k) =
        (q1.choices.filter fun a => (l.get ⟨k, hk⟩).choices.contains a).length := by
  intro l
  induction l with
  | nil => intro j k hk; simp at hk
  | cons q2 rest ih =>
      intro j k hk
      cases k with
      | zero =>
          simp only [Nat.add_zero]
          have hget : ((q2 :: rest).get ⟨0, hk⟩) = q2 := rfl
          rw [hget]
          have hz : (dupInner i q1 (j + 1) rest).2.countP
              (fun e => e.position1 == i && e.position2 == j) = 0 := by
            rw [List.countP_eq_zero]
            intro e he
            have h2 := (dupInner_snd_pos i q1 rest (j + 1) e he).2
            simp only [Bool.and_eq_true, beq_iff_eq]
            rintro ⟨-, h3⟩
            omega
          simp only [dupInner, List.countP_append, hz, Nat.add_zero]
          rw [List.countP_eq_length.mpr (by
            intro e he
            simp at he
            obtain ⟨a, -, he⟩ := he
            subst he
            simp)]
          simp
      | succ n =>
          have hn : n < rest.length := by simpa using hk
          have hget : ((q2 :: rest).get ⟨n + 1, hk⟩) = rest.get ⟨n, hn⟩ := by
            simp
          rw [hget]
          have harith : j + (n + 1) = (j + 1) + n := by omega
          rw [harith]
          have hih := ih (j + 1) n hn
          have hmap : ((q1.choices.filter fun a => q2.choices.contains a).map
              (fun a => (⟨a, i, j⟩ : DupAnswerEntry))).countP
              (fun e => e.position1 == i && e.position2 == (j + 1) + n) = 0 := by
            rw [List.countP_eq_zero]
            intro e he
            simp at he
            obtain ⟨a, -, he⟩ := he
            subst he
            simp only [Bool.and_eq_true, beq_iff_eq]
            rintro ⟨-, h3⟩
            omega
          simp only [dupInner, List.countP_append, hmap, Nat.zero_add]
          rw [hih]

theorem dupOuter_fst_pos :
    ∀ l i e, e ∈ (dupOuter i l).1 → i ≤ e.position1 := by
  intro l
  induction l with
  | nil => intro i e he; simp [dupOuter] at he
  | cons q1 rest ih =>
      intro i e he
      simp only [dupOuter, List.mem_append] at he
      rcases he with he | he
      · exact le_of_eq (dupInner_fst_pos i q1 rest (i + 1) e he).1.symm
      · exact le_trans (Nat.le_succ i) (ih (i + 1) e he)

theorem dupOuter_snd_pos :
    ∀ l i e, e ∈ (dupOuter i l).2 → i ≤ e.position1 := by
  intro l
  induction l with
  | nil => intro i e he; simp [dupOuter] at he
  | cons q1 rest ih =>
      intro i e he
      simp only [dupOuter, List.mem_append] at he
      rcases he with he | he
      · exact le_of_eq (dupInner_snd_pos i q1 rest (i + 1) e he).1.symm
      · exact le_trans (Nat.le_succ i) (ih (i + 1) e he)

theorem dupOuter_countQ :
    ∀ (l : List Question) (i a b : Nat) (ha : a < l.length) (hb : b < l.length),
      a < b →
      (dupOuter i l).1.countP
          (fun e => e.position1 == i + a && e.position2 == i + b) =
        if (l.get ⟨a, ha⟩).text = (l.get ⟨b, hb⟩).text then 1 else 0 := by
  intro l
  induction l with
  | nil => intro i a b ha; simp at ha
  | cons q1 rest ih =>
      intro i a b ha hb hab
      cases a with
      | zero =>
          obtain ⟨m, rfl⟩ : ∃ m, b = m + 1 := ⟨b - 1, by omega⟩
          have hm : m < rest.length := by simpa using hb
          simp only [Nat.add_zero]
          have hget0 : ((q1 :: rest).get ⟨0, ha⟩) = q1 := rfl
          have hgetb : ((q1 :: rest).get ⟨m + 1, hb⟩) = rest.get ⟨m, hm⟩ := by
            simp
          rw [hget0, hgetb]
          have harith : i + (m + 1) = (i + 1) + m := by omega
          rw [harith]
          have houter : (dupOuter (i + 1) rest).1.countP
              (fun e => e.position1 == i && e.position2 == (i + 1) + m) = 0 := by
            rw [List.countP_eq_zero]
            intro e he
            have h1 := dupOuter_fst_pos rest (i + 1) e he
            simp only [Bool.and_eq_true, beq_iff_eq]
            rintro ⟨h2, -⟩
            omega
          have hinner := dupInner_countQ i q1 rest (i + 1) m hm
          simp only [dupOuter, List.countP_append, houter, hinner, Nat.add_zero]
      | succ n =>
          obtain ⟨m, rfl⟩ : ∃ m, b = m + 1 := ⟨b - 1, by omega⟩
          have hn : n < rest.length := by simpa using ha
          have hm : m < rest.length := by simpa using hb
          have hgeta : ((q1 :: rest).get ⟨n + 1, ha⟩) = rest.get ⟨n, hn⟩ := by
            simp
          have hgetb : ((q1 :: rest).get ⟨m + 1, hb⟩) = rest.get ⟨m, hm⟩ := by
            simp
          rw [hgeta, hgetb]
          have ha1 : i + (n + 1) = (i + 1) + n := by omega
          have hb1 : i + (m + 1) = (i + 1) + m := by omega
          rw [ha1, hb1]
          have hinner : (dupInner i q1 (i + 1) rest).1.countP
              (fun e => e.position1 == (i + 1) + n &&
                e.position2 == (i + 1) + m) = 0 := by
            rw [List.countP_eq_zero]
            intro e he
            have h1 := (dupInner_fst_pos i q1 rest (i + 1) e he).1
            simp only [Bool.and_eq_true, beq_iff_eq]
            rintro ⟨h2, -⟩
            omega
          have houter := ih (i + 1) n m hn hm (by omega)
          simp only [dupOuter, List.countP_append, hinner, houter, Nat.zero_add]

theorem dupOuter_countA :
    ∀ (l : List Question) (i a b : Nat) (ha : a < l.length) (hb : b < l.length),
      a < b →
      (dupOuter i l).2.countP
          (fun e => e.position1 == i + a && e.position2 == i + b) =
        ((l.get ⟨a, ha⟩).choices.filter
            fun x => (l.get ⟨b, hb⟩).choices.contains x).length := by
  intro l
  induction l with
  | nil => intro i a b ha; simp at ha
  | cons q1 rest ih =>
      intro i a b ha hb hab
      cases a with
      | zero =>
          obtain ⟨m, rfl⟩ : ∃ m, b = m + 1 := ⟨b - 1, by omega⟩
          have hm : m < rest.length := by simpa using hb
          simp only [Nat.add_zero]
          have hget0 : ((q1 :: rest).get ⟨0, ha⟩) = q1 := rfl
          have hgetb : ((q1 :: rest).get ⟨m + 1, hb⟩) = rest.get ⟨m, hm⟩ := by
            simp
          rw [hget0, hgetb]
          have harith : i + (m + 1) = (i + 1) + m := by omega
          rw [harith]
          have houter : (dupOuter (i + 1) rest).2.countP
              (fun e => e.position1 == i && e.position2 == (i + 1) + m) = 0 := by
            rw [List.countP_eq_zero]
            intro e he
            have h1 := dupOuter_snd_pos rest (i + 1) e he
            simp only [Bool.and_eq_true, beq_iff_eq]
            rintro ⟨h2, -⟩
            omega
          have hinner := dupInner_countA i q1 rest (i + 1) m hm
          simp only [dupOuter, List.countP_append, houter, hinner, Nat.add_zero]
      | succ n =>
          obtain ⟨m, rfl⟩ : ∃ m, b = m + 1 := ⟨b - 1, by omega⟩
          have hn : n < rest.length := by simpa using ha
          have hm : m < rest.length := by simpa using hb
          have hgeta : ((q1 :: rest).get ⟨n + 1, ha⟩) = rest.get ⟨n, hn⟩ := by
            simp
          have hgetb : ((q1 :: rest).get ⟨m + 1, hb⟩) = rest.get ⟨m, hm⟩ := by
            simp
          rw [hgeta, hgetb]
          have ha1 : i + (n + 1) = (i + 1) + n := by omega
          have hb1 : i + (m + 1) = (i + 1) + m := by omega
          rw [ha1, hb1]
          have hinner : (dupInner i q1 (i + 1) rest).2.countP
              (fun e => e.position1 == (i + 1) + n &&
                e.position2 == (i + 1) + m) = 0 := by
            rw [List.countP_eq_zero]
            intro e he
            have h1 := (dupInner_snd_pos i q1 rest (i + 1) e he).1
            simp only [Bool.and_eq_true, beq_iff_eq]
            rintro ⟨h2, -⟩
            omega
          have houter := ih (i + 1) n m hn hm (by omega)
          simp only [dupOuter, List.countP_append, hinner, houter, Nat.zero_add]

/-- C4 counterexample: question 0 of `dupCexQs` holds the choice "x" twice and
question 1 holds it once; the two questions share exactly one choice string,
yet the handler reports two duplicate-answer entries for the pair (0, 1) — one
per occurrence of "x" inside question 0's choice list — refuting the claimed
count of exactly one entry per shared string. -/
theorem find_duplicates_shared_count_cex :
    ((get_duplicate_questions_answers dupCexQs).2.countP
        (fun e => e.position1 == 0 && e.position2 == 1) = 2) ∧
    ((dupCexQs.get ⟨0, by decide⟩).choices.filter
        (fun a => (dupCexQs.get ⟨1, by decide⟩).choices.contains a)).dedup.length
      = 1 ∧
    (2 : Nat) ≠ 1 := by decide

/-- C4 (amended): for each pair of positions (i, j) with i < j the handler
reports exactly one duplicate-question entry when the texts are equal under
exact case-sensitive string equality (none otherwise), and exactly one
duplicate-answer entry per position of `questions[i].choices` whose string
also occurs in `questions[j].choices` (equal to the number of distinct shared
strings whenever `questions[i].choices` has no duplicated entries); on the set
with identical texts at positions 0 and 2 and all choices disjoint it reports
exactly the one duplicate-question entry (0, 2) and no duplicate-answer
entries. -/
theorem find_duplicates_per_pair (qs : List Question) (i j : Nat)
    (hij : i < j) (hj : j < qs.length) :
    ((get_duplicate_questions_answers qs).1.countP
        (fun e => e.position1 == i && e.position2 == j) =
      if (qs.get ⟨i, lt_trans hij hj⟩).text = (qs.get ⟨j, hj⟩).text
        then 1 else 0) ∧
    ((get_duplicate_questions_answers qs).2.countP
        (fun e => e.position1 == i && e.position2 == j) =
      ((qs.get ⟨i, lt_trans hij hj⟩).choices.filter
          fun a => (qs.get ⟨j, hj⟩).choices.contains a).length) ∧
    get_duplicate_questions_answers dupScenario =
      ([⟨"What is X?", 0, 2⟩], []) := by
  refine ⟨?_, ?_, by decide⟩
  · have h1 := dupOuter_countQ qs 0 i j (lt_trans hij hj) hj hij
    rw [Nat.zero_add, Nat.zero_add] at h1
    exact h1
  · have h2 := dupOuter_countA qs 0 i j (lt_trans hij hj) hj hij
    rw [Nat.zero_add, Nat.zero_add] at h2
    exact h2

/-- Witness for C4 at the scenario input: the pair (0, 2) of `dupScenario`
carries exactly one duplicate-question entry. -/
theorem find_duplicates_per_pair_witness :
    (get_duplicate_questions_answers dupScenario).1.countP
        (fun e => e.position1 == 0 && e.position2 == 2) = 1 := by
  have h := (find_duplicates_per_pair dupScenario 0 2 (by decide) (by decide)).1
  rw [h]
  decide

theorem pyIndex_first (x : String) :
    ∀ l : List String, x ∈ l → ∃ i, pyIndex x l = some i ∧ i < l.length ∧
      l.getD i "" = x ∧ ∀ k, k < i → l.getD k "" ≠ x := by
  intro l
  induction l with
  | nil => intro h; simp at h
  | cons y ys ih =>
      intro h
      by_cases hy : y = x
      · refine ⟨0, by simp [pyIndex, hy], by simp, by simp [hy], ?_⟩
        intro k hk
        omega
      · have hx : x ∈ ys := by
          rcases List.mem_cons.mp h with h1 | h1
          · exact absurd h1.symm hy
          · exact h1
        obtain ⟨i, h1, h2, h3, h4⟩ := ih hx
        refine ⟨i + 1, ?_, by simpa using h2, by simpa using h3, ?_⟩
        · simp [pyIndex, hy, h1]
        · intro k hk
          cases k with
          | zero => simpa using hy
          | succ m =>
              have := h4 m (by omega)
              simpa using this

theorem joinLines_append (l1 l2 : List String) :
    joinLines (l1 ++ l2) = joinLines l1 ++ joinLines l2 := by
  induction l1 with
  | nil => simp [joinLines]
  | cons s t ih =>
      simp [joinLines, ih, String.append_assoc]

theorem choiceLines_spec :
    ∀ (l : List String) (n : Nat),
      choiceLines n l = joinLines ((List.range l.length).map
        (fun k => String.singleton (positionLetter (n + k)) ++ ". " ++
          l.getD k "")) := by
  intro l
  induction l with
  | nil => intro n; rfl
  | cons a rest ih =>
      intro n
      have h1 : (List.range (a :: rest).length).map
          (fun k => String.singleton (positionLetter (n + k)) ++ ". " ++
            (a :: rest).getD k "") =
          (String.singleton (positionLetter n) ++ ". " ++ a) ::
            (List.range rest.length).map
              (fun k => String.singleton (positionLetter ((n + 1) + k)) ++
                ". " ++ rest.getD k "") := by
        rw [List.length_cons, List.range_succ_eq_map, List.map_cons,
          List.map_map]
        refine congrArg₂ List.cons (by simp) ?_
        apply List.map_congr_left
        intro k hk
        have harith : n + (k + 1) = (n + 1) + k := by omega
        simp [Function.comp, harith]
      rw [h1]
      simp only [choiceLines, joinLines, ih (n + 1)]

theorem aikenBlock_eq (q : Question) (idx : Nat) :
    q.text ++ "\n" ++ choiceLines 0 q.choices ++ "ANSWER: " ++
      String.singleton (positionLetter idx) ++ "\n\n" =
    joinLines (aikenLinesSpec q idx) := by
  have hmid := choiceLines_spec q.choices 0
  have hzero : (fun k => String.singleton (positionLetter (0 + k)) ++ ". " ++
      q.choices.getD k "") = (fun k => String.singleton (positionLetter k) ++
      ". " ++ q.choices.getD k "") := by
    funext k
    rw [Nat.zero_add]
  rw [hzero] at hmid
  have h2 : ("\n\n" : String) = "\n" ++ "\n" := by decide
  rw [aikenLinesSpec, joinLines_append, joinLines_append]
  simp only [joinLines]
  rw [hmid, h2]
  simp [String.append_assoc]

theorem export_questions_aiken_eq (qs : List Question)
    (h : ∀ q ∈ qs, q.correct_choice ∈ q.choices) :
    export_questions_aiken qs = .ok (aikenSpec qs) := by
  induction qs with
  | nil => rfl
  | cons q rest ih =>
      obtain ⟨i, hi, -, -, -⟩ :=
        pyIndex_first q.correct_choice q.choices (h q (by simp))
      have htail := ih (fun p hp => h p (List.mem_cons_of_mem _ hp))
      simp only [export_questions_aiken, hi, htail, aikenSpec, Option.getD_some]
      rw [aikenBlock_eq]

/-- C6: for question lists whose `correct_choice` is a member of `choices`,
the Aiken export emits, per question in input order: the stem line, one line
per choice prefixed by the letter assigned to its position in the `choices`
array, a line `ANSWER: <letter>` whose letter is the position letter of the
first index at which `correct_choice` occurs, and a blank separator line. -/
theorem aiken_serialization (qs : List Question)
    (h : ∀ q ∈ qs, q.correct_choice ∈ q.choices) :
    export_questions_aiken qs = .ok (aikenSpec qs) ∧
    ∀ q ∈ qs, ∃ i, pyIndex q.correct_choice q.choices = some i ∧
      i < q.choices.length ∧ q.choices.getD i "" = q.correct_choice ∧
      ∀ k, k < i → q.choices.getD k "" ≠ q.correct_choice := by
  refine ⟨export_questions_aiken_eq qs h, ?_⟩
  intro q hq
  exact pyIndex_first q.correct_choice q.choices (h q hq)

/-- Witness for C6 at a concrete question: export of a single question whose
correct choice sits at position 2 ("C"). -/
theorem aiken_serialization_witness :
    export_questions_aiken [⟨"Q1?", ["w", "x", "y", "z"], "y"⟩] =
      .ok "Q1?\nA. w\nB. x\nC. y\nD. z\nANSWER: C\n\n" := by
  have h := (aiken_serialization [⟨"Q1?", ["w", "x", "y", "z"], "y"⟩]
    (by decide)).1
  rw [h]
  have hs : aikenSpec [⟨"Q1?", ["w", "x", "y", "z"], "y"⟩] =
      "Q1?\nA. w\nB. x\nC. y\nD. z\nANSWER: C\n\n" := by decide
  rw [hs]

/-- C7: for a question whose `correct_choice` is among its at most 26
choices, the letter on the `ANSWER:` line of the Aiken output, read back to a
position by `letterIndex`, indexes the original `choices` array at a string
equal to `correct_choice`. -/
theorem aiken_roundtrip (q : Question)
    (hmem : q.correct_choice ∈ q.choices) (hlen : q.choices.length ≤ 26) :
    ∃ i, pyIndex q.correct_choice q.choices = some i ∧
      export_questions_aiken [q] =
        .ok (q.text ++ "\n" ++ choiceLines 0 q.choices ++ "ANSWER: " ++
          String.singleton (positionLetter i) ++ "\n\n") ∧
      letterIndex (positionLetter i) = i ∧
      q.choices.getD (letterIndex (positionLetter i)) "" = q.correct_choice := by
  obtain ⟨i, hi, hilen, hget, -⟩ := pyIndex_first q.correct_choice q.choices hmem
  have hi26 : i < 26 := by omega
  have hround : (Char.ofNat (65 + i)).toNat = 65 + i := by
    interval_cases i <;> decide
  have hletter : letterIndex (positionLetter i) = i := by
    rw [letterIndex, positionLetter, hround]
    omega
  refine ⟨i, hi, ?_, hletter, by rw [hletter]; exact hget⟩
  simp only [export_questions_aiken, hi]
  simp

/-- Witness for C7 at a concrete question with the correct choice at
position 3 ("D"). -/
theorem aiken_roundtrip_witness :
    ∃ i, pyIndex "z" ["w", "x", "y", "z"] = some i ∧
      export_questions_aiken [⟨"Q2?", ["w", "x", "y", "z"], "z"⟩] =
        .ok ("Q2?" ++ "\n" ++ choiceLines 0 ["w", "x", "y", "z"] ++
          "ANSWER: " ++ String.singleton (positionLetter i) ++ "\n\n") ∧
      letterIndex (positionLetter i) = i ∧
      ["w", "x", "y", "z"].getD (letterIndex (positionLetter i)) "" = "z" :=
  aiken_roundtrip ⟨"Q2?", ["w", "x", "y", "z"], "z"⟩ (by decide) (by decide)

theorem escapeChars_no_lt : ∀ l : List Char, '<' ∉ escapeChars l := by
  intro l
  induction l with
  | nil => simp [escapeChars]
  | cons c rest ih =>
      simp only [escapeChars, List.mem_append, not_or]
      refine ⟨?_, ih⟩
      by_cases h1 : c = '&'
      · rw [if_pos h1]; decide
      · rw [if_neg h1]
        by_cases h2 : c = '<'
        · rw [if_pos h2]; decide
        · rw [if_neg h2]
          by_cases h3 : c = '>'
          · rw [if_pos h3]; decide
          · rw [if_neg h3]
            simp only [List.mem_singleton]
            exact fun hc => h2 hc.symm

theorem escapeChars_no_gt : ∀ l : List Char, '>' ∉ escapeChars l := by
  intro l
  induction l with
  | nil => simp [escapeChars]
  | cons c rest ih =>
      simp only [escapeChars, List.mem_append, not_or]
      refine ⟨?_, ih⟩
      by_cases h1 : c = '&'
      · rw [if_pos h1]; decide
      · rw [if_neg h1]
        by_cases h2 : c = '<'
        · rw [if_pos h2]; decide
        · rw [if_neg h2]
          by_cases h3 : c = '>'
          · rw [if_pos h3]; decide
          · rw [if_neg h3]
            simp only [List.mem_singleton]
            exact fun hc => h3 hc.symm

/-- C8: the Moodle export builds, per input question in order, a
`question` element of type `multichoice` holding a `name`, a `questiontext`
of format `html` wrapping the stem in a CDATA-equivalent escape, and one
`answer` element per choice whose `fraction` attribute is "100" exactly when
the choice equals `correct_choice` and "0" otherwise, each carrying a
feedback of "Correct!" for the correct entry and "Incorrect." for the
others; the serialized markup stays well-formed because every text node is
escaped so that no raw angle bracket survives in character data. -/
theorem moodle_xml_structure (qs : List Question) :
    create_moodle_xml qs =
      XNode.elem "quiz" [] none (qs.map moodleQuestionSpec) ∧
    (∀ q : Question, ∀ a : String,
      (moodleAnswerSpec q.correct_choice a).attrs =
        [("fraction", if a = q.correct_choice then "100" else "0")] ∧
      (moodleAnswerSpec q.correct_choice a).children =
        [XNode.elem "text" [] (some a) [],
         XNode.elem "feedback" [] none
           [XNode.elem "text" []
              (some (if a = q.correct_choice then "Correct!"
                else "Incorrect.")) []]]) ∧
    (∀ q : Question, (moodleQuestionSpec q).tag = "question" ∧
      (moodleQuestionSpec q).attrs = [("type", "multichoice")] ∧
      (moodleQuestionSpec q).children.take 2 =
        [XNode.elem "name" [] none [XNode.elem "text" [] (some q.text) []],
         XNode.elem "questiontext" [("format", "html")] none
           [XNode.elem "text" []
              (some ("<![CDATA[" ++ q.text ++ "]]>")) []]] ∧
      (moodleQuestionSpec q).children.drop 2 =
        q.choices.map (moodleAnswerSpec q.correct_choice)) ∧
    (∀ s : String,
      '<' ∉ (escape_cdata s).data ∧ '>' ∉ (escape_cdata s).data) := by
  refine ⟨rfl, ?_, ?_, ?_⟩
  · intro q a
    exact ⟨rfl, rfl⟩
  · intro q
    refine ⟨rfl, rfl, rfl, ?_⟩
    simp [moodleQuestionSpec, XNode.children]
  · intro s
    exact ⟨escapeChars_no_lt s.data, escapeChars_no_gt s.data⟩

theorem startsWithChars_iff :
    ∀ needle hay : List Char,
      startsWithChars hay needle = true ↔ ∃ post, hay = needle ++ post := by
  intro needle
  induction needle with
  | nil =>
      intro hay
      constructor
      · intro; exact ⟨hay, rfl⟩
      · intro; cases hay <;> rfl
  | cons n ns ih =>
      intro hay
      cases hay with
      | nil =>
          constructor
          · intro h; exact absurd h (by simp [startsWithChars])
          · rintro ⟨post, hpost⟩; exact absurd hpost (by simp)
      | cons h hs =>
          simp only [startsWithChars, Bool.and_eq_true, beq_iff_eq]
          constructor
          · rintro ⟨rfl, hrec⟩
            obtain ⟨post, rfl⟩ := (ih hs).mp hrec
            exact ⟨post, rfl⟩
          · rintro ⟨post, hpost⟩
            rw [List.cons_append] at hpost
            injection hpost with h1 h2
            exact ⟨h1, (ih hs).mpr ⟨post, h2⟩⟩

theorem hasSubChars_iff :
    ∀ hay needle : List Char,
      hasSubChars hay needle = true ↔
        ∃ pre post, hay = pre ++ needle ++ post := by
  intro hay
  induction hay with
  | nil =>
      intro needle
      cases needle with
      | nil =>
          constructor
          · intro; exact ⟨[], [], rfl⟩
          · intro; rfl
      | cons n ns =>
          constructor
          · intro h; exact absurd h (by simp [hasSubChars, List.isEmpty])
          · rintro ⟨pre, post, hp⟩
            rw [List.append_assoc] at hp
            exact absurd hp (by simp)
  | cons c t ih =>
      intro needle
      simp only [hasSubChars, Bool.or_eq_true]
      constructor
      · rintro (h | h)
        · obtain ⟨post, hp⟩ := (startsWithChars_iff needle (c :: t)).mp h
          exact ⟨[], post, by simpa using hp⟩
        · obtain ⟨pre, post, hp⟩ := (ih needle).mp h
          exact ⟨c :: pre, post, by simp [hp]⟩
      · rintro ⟨pre, post, hp⟩
        cases pre with
        | nil =>
            left
            refine (startsWithChars_iff needle (c :: t)).mpr ⟨post, ?_⟩
            simpa using hp
        | cons p ps =>
            right
            have hp2 : c = p ∧ t = ps ++ needle ++ post := by
              rw [List.cons_append, List.cons_append] at hp
              exact List.cons_eq_cons.mp hp
            exact (ih needle).mpr ⟨ps, post, hp2.2⟩

theorem searchDoc_wf (keyword uid cid : String) (d : QDoc)
    (h : WellFormedDoc d) :
    searchDoc keyword uid cid d = .ok (specDocFn keyword uid cid d) := by
  obtain ⟨hq, hc, h0, h1, h2, h3⟩ := h
  obtain ⟨qtext, hq⟩ := Option.isSome_iff_exists.mp hq
  obtain ⟨crct, hc⟩ := Option.isSome_iff_exists.mp hc
  obtain ⟨a0, h0⟩ := Option.isSome_iff_exists.mp h0
  obtain ⟨a1, h1⟩ := Option.isSome_iff_exists.mp h1
  obtain ⟨a2, h2⟩ := Option.isSome_iff_exists.mp h2
  obtain ⟨a3, h3⟩ := Option.isSome_iff_exists.mp h3
  by_cases hk : containsSubstring (lowerStr qtext) (lowerStr keyword)
  · simp [searchDoc, specDocFn, hq, hc, h0, h1, h2, h3, hk]
  · simp [searchDoc, specDocFn, hq, hc, h0, h1, h2, h3, hk]

theorem searchDocs_eq (keyword uid cid : String) :
    ∀ docs : List QDoc, (∀ d ∈ docs, WellFormedDoc d) →
      searchDocs keyword uid cid docs =
        .ok (docs.filterMap (specDocFn keyword uid cid)) := by
  intro docs
  induction docs with
  | nil => intro _; rfl
  | cons d rest ih =>
      intro h
      have hd := searchDoc_wf keyword uid cid d (h d (by simp))
      have htail := ih (fun x hx => h x (List.mem_cons_of_mem _ hx))
      cases hspec : specDocFn keyword uid cid d with
      | none =>
          rw [hspec] at hd
          simp [searchDocs, hd, htail, List.filterMap_cons, hspec]
      | some m =>
          rw [hspec] at hd
          simp [searchDocs, hd, htail, List.filterMap_cons, hspec]

theorem searchCollections_eq (keyword uid : String) :
    ∀ cols : List QCollection,
      (∀ c ∈ cols, ∀ d ∈ c.docs, WellFormedDoc d) →
      searchCollections keyword uid cols =
        .ok (cols.flatMap fun c =>
          c.docs.filterMap (specDocFn keyword uid c.id)) := by
  intro cols
  induction cols with
  | nil => intro _; rfl
  | cons c rest ih =>
      intro h
      have hc := searchDocs_eq keyword uid c.id c.docs (h c (by simp))
      have htail := ih (fun x hx => h x (List.mem_cons_of_mem _ hx))
      simp [searchCollections, hc, htail]

theorem searchUsers_eq (keyword : String) :
    ∀ store : List UserDoc,
      (∀ u ∈ store, ∀ c ∈ u.collections, ∀ d ∈ c.docs, WellFormedDoc d) →
      searchUsers keyword store = .ok (searchSpec keyword store) := by
  intro store
  induction store with
  | nil => intro _; rfl
  | cons u rest ih =>
      intro h
      have hu := searchCollections_eq keyword u.id u.collections (h u (by simp))
      have htail := ih (fun x hx => h x (List.mem_cons_of_mem _ hx))
      simp [searchUsers, hu, htail, searchSpec]

/-- C9: under the schema the code relies on, the search returns exactly the
documents, across every collection of every user in store enumeration order,
whose lowered text contains the lowered keyword as a substring; a match
carries the owning user id, the collection name, the question id, text,
choices and correct choice, and a rating exactly when the stored rating list
is present and non-empty; `containsSubstring` is genuine substring
occurrence. -/
theorem search_matches_spec (keyword : String) (store : Store)
    (h : ∀ u ∈ store, ∀ c ∈ u.collections, ∀ d ∈ c.docs, WellFormedDoc d) :
    search_questions keyword store = .ok (searchSpec keyword store) ∧
    (∀ hay needle : String,
      containsSubstring hay needle = true ↔
        ∃ pre post : List Char, hay.data = pre ++ needle.data ++ post) := by
  constructor
  · rw [search_questions, searchUsers_eq keyword store h]
  · intro hay needle
    exact hasSubChars_iff hay.data needle.data

/-- Witness for C9 on a concrete store: the case-insensitive match for
"water" returns exactly the one matching document, rating attached because it
is non-empty, and the non-matching document is absent. -/
theorem search_matches_spec_witness :
    search_questions "water" goodStore = .ok (searchSpec "water" goodStore) ∧
    searchSpec "water" goodStore =
      [⟨"u1", "chemistry", "q1", "What is Water made of?",
        ["H2O", "CO2", "O2", "N2"], "H2O", some [⟨"u2", 4⟩]⟩] := by
  refine ⟨(search_matches_spec "water" goodStore (by decide)).1, by decide⟩

/-- C10: the search is total when every reachable document carries a
`question` field, a `crct_ans` field and `all_ans` keys "0" through "3";
and on a store holding one document that violates the schema (missing
`crct_ans`, text matching the keyword), the entire request fails with the
500 "Internal Server Error" and returns no matches at all — the well-formed
matching document of the same store is not returned either. -/
theorem search_schema_dependence :
    (∀ (keyword : String) (store : Store),
      (∀ u ∈ store, ∀ c ∈ u.collections, ∀ d ∈ c.docs, WellFormedDoc d) →
      ∃ ms, search_questions keyword store = .ok ms) ∧
    search_questions "water" malformedStore = .error "Internal Server Error" ∧
    (∃ d ∈ (malformedStore.flatMap fun u => u.collections.flatMap
        fun c => c.docs), WellFormedDoc d ∧
      containsSubstring (lowerStr ((d.question).getD ""))
        (lowerStr "water") = true) := by
  refine ⟨?_, by decide, ?_⟩
  · intro keyword store h
    exact ⟨searchSpec keyword store, by
      rw [search_questions, searchUsers_eq keyword store h]⟩
  · refine ⟨⟨"qgood", some "What is water?", some "H2O",
      [("0", "H2O"), ("1", "CO2"), ("2", "O2"), ("3", "N2")], none⟩,
      by decide, by decide, by decide⟩

/-- Witness for C10 on the concrete well-formed store: the search succeeds
there. -/
theorem search_schema_dependence_witness :
    ∃ ms, search_questions "water" goodStore = .ok ms :=
  search_schema_dependence.1 "water" goodStore (by decide)

/-- C1 (evaluation of the code at the failing inputs): with no credential
presented, every endpoint other than register/login that declares the auth
dependency rejects with a 403 before its body runs — but the two export
endpoints run their handler bodies unconditionally, because their signatures
omit `token: str = Depends(auth_scheme)`; they run even for a non-bearer
scheme or an arbitrary rejected token, for every verifier. -/
theorem export_endpoints_unauthenticated (verify_jwt : String → Bool) :
    dispatch verify_jwt "export-questions" none = .bodyRan ∧
    dispatch verify_jwt "export-questions-moodle" none = .bodyRan ∧
    (∀ c, dispatch verify_jwt "export-questions" c = .bodyRan) ∧
    (∀ c, dispatch verify_jwt "export-questions-moodle" c = .bodyRan) ∧
    dispatch verify_jwt "get-question" none =
      .rejected 403 "Invalid authorization code." ∧
    dispatch verify_jwt "get-questions" none =
      .rejected 403 "Invalid authorization code." ∧
    dispatch verify_jwt "duplicate-questions-answers" none =
      .rejected 403 "Invalid authorization code." ∧
    dispatch verify_jwt "rating-questions" none =
      .rejected 403 "Invalid authorization code." ∧
    dispatch verify_jwt "comment-questions" none =
      .rejected 403 "Invalid authorization code." ∧
    dispatch verify_jwt "search-questions" none =
      .rejected 403 "Invalid authorization code." ∧
    dispatch verify_jwt "delete-question" none =
      .rejected 403 "Invalid authorization code." ∧
    (∀ ep tok, endpointRequiresAuth ep = true →
      dispatch verify_jwt ep (some ⟨"Basic", tok⟩) =
        .rejected 403 "Invalid authentication scheme.") := by
  refine ⟨rfl, rfl, fun c => rfl, fun c => rfl, rfl, rfl, rfl, rfl, rfl,
    rfl, rfl, ?_⟩
  intro ep tok hep
  rw [dispatch, hep]
  simp [jwt_bearer]

theorem update_status_questions (req : ModelInput) (b : Bool) (fs : FS)
    (k : String × String) :
    ((update_generated_status req b fs) k).questions = (fs k).questions := by
  rw [update_generated_status]
  by_cases h : k = (req.uid, req.name)
  · simp [h]
  · simp [h]

theorem update_status_flag (req : ModelInput) (b : Bool) (fs : FS) :
    ((update_generated_status req b fs)
      (req.uid, req.name)).generationInProgress = b := by
  rw [update_generated_status]
  simp

/-- C2 counterexample: with a model step failing after the flag was set, the
flag is left `true` when control returns — `process_request` makes no
attempt to clear it — refuting the claim that the implementation still
attempts to clear `generationInProgress` back to `false`. -/
theorem pipeline_flag_not_cleared_cex :
    ((process_request failingModels ⟨"ctx", "u", "t"⟩ fs0).1 =
      .error "model failure") ∧
    ((process_request failingModels ⟨"ctx", "u", "t"⟩ fs0).2
        ("u", "t")).generationInProgress = true ∧
    (fs0 ("u", "t")).generationInProgress = false := by
  exact ⟨rfl, rfl, rfl⟩

/-- C2 (amended): a run in which a step fails after `generationInProgress`
was set `true` aborts without persisting any QuestionSet, but the
implementation makes no attempt to clear the flag on a model-step failure —
it remains `true` when control returns; only a failure of the store write
itself returns with the flag `false`, because the flag had already been
cleared before that write. -/
theorem pipeline_failure_flag (m : Models) (request : ModelInput) (fs : FS)
    (ctx nm : String)
    (ht : m.translate request.context = .ok ctx)
    (hn : m.translate request.name = .ok nm) :
    (∀ e, generate_que_n_ans m ctx = .error e →
      (process_request m request fs).1 = .error e ∧
      ((process_request m request fs).2
          (request.uid, nm)).generationInProgress = true ∧
      (∀ k, ((process_request m request fs).2 k).questions =
        (fs k).questions)) ∧
    (∀ questions crct_ans all_ans e2,
      generate_que_n_ans m ctx = .ok (questions, crct_ans, all_ans) →
      m.send_results_to_fs ⟨ctx, request.uid, nm⟩ questions crct_ans all_ans
          ctx (update_generated_status ⟨ctx, request.uid, nm⟩ false
            (update_generated_status ⟨ctx, request.uid, nm⟩ true fs)) =
        .error e2 →
      (process_request m request fs).1 = .error e2 ∧
      ((process_request m request fs).2
          (request.uid, nm)).generationInProgress = false ∧
      (∀ k, ((process_request m request fs).2 k).questions =
        (fs k).questions)) := by
  constructor
  · intro e hg
    have hres : process_request m request fs =
        (.error e, update_generated_status ⟨ctx, request.uid, nm⟩ true fs) := by
      rw [process_request, ht, hn]
      simp only [hg]
    rw [hres]
    exact ⟨rfl, update_status_flag ⟨ctx, request.uid, nm⟩ true fs,
      fun k => update_status_questions ⟨ctx, request.uid, nm⟩ true fs k⟩
  · intro questions crct_ans all_ans e2 hg hsend
    have hres : process_request m request fs =
        (.error e2, update_generated_status ⟨ctx, request.uid, nm⟩ false
          (update_generated_status ⟨ctx, request.uid, nm⟩ true fs)) := by
      rw [process_request, ht, hn]
      simp only [hg, hsend]
    rw [hres]
    refine ⟨rfl, update_status_flag _ _ _, ?_⟩
    intro k
    rw [update_status_questions, update_status_questions]

/-- Witness for C2 at the concrete failing collaborators: the run aborts and
the flag is observed still `true`. -/
theorem pipeline_failure_flag_witness :
    (process_request failingModels ⟨"ctxW", "uW", "tW"⟩ fs0).1 =
      .error "model failure" ∧
    ((process_request failingModels ⟨"ctxW", "uW", "tW"⟩ fs0).2
        ("uW", "tW")).generationInProgress = true := by
  have h := (pipeline_failure_flag failingModels ⟨"ctxW", "uW", "tW"⟩ fs0
    "ctxW" "tW" rfl rfl).1 "model failure" rfl
  exact ⟨h.1, h.2.1⟩

theorem runSentences_length (m : Models) (uid nm : String) :
    ∀ (frags : List String) (fs : FS) (outs : List (List Question)),
      (runSentences m uid nm frags fs).1 = .ok outs →
      outs.length = frags.length := by
  intro frags
  induction frags with
  | nil =>
      intro fs outs h
      simp only [runSentences] at h
      cases h
      rfl
  | cons s rest ih =>
      intro fs outs h
      simp only [runSentences] at h
      rcases hp : process_request m ⟨s, uid, nm⟩ fs with ⟨res, fs2⟩
      rw [hp] at h
      cases res with
      | error e => simp at h
      | ok r =>
          dsimp only at h
          rcases hr : runSentences m uid nm rest fs2 with ⟨res2, fs3⟩
          rw [hr] at h
          cases res2 with
          | error e => simp at h
          | ok rs =>
              simp at h
              have hlen := ih fs2 rs (by rw [hr])
              rw [← h]
              simp [hlen]

/-- C5 counterexample: for the context "a b. c" the first run yields two
questions and the second one; the endpoint returns the two per-run
QuestionSets as separate elements — a 2-element nested list — not their
3-question ordered concatenation, refuting the claimed flattening. -/
theorem runSplit_nested_cex :
    (get_questions scenarioModels ⟨"a b. c", "u", "t"⟩ fs0).1 =
      .ok [[⟨"Q:a", ["a", "w1", "w2", "w3"], "a"⟩,
            ⟨"Q:b", ["b", "w1", "w2", "w3"], "b"⟩],
           [⟨"Q:c", ["c", "w1", "w2", "w3"], "c"⟩]] ∧
    (([[⟨"Q:a", ["a", "w1", "w2", "w3"], "a"⟩,
        ⟨"Q:b", ["b", "w1", "w2", "w3"], "b"⟩],
       [⟨"Q:c", ["c", "w1", "w2", "w3"], "c"⟩]] :
        List (List Question)).length = 2) ∧
    (([⟨"Q:a", ["a", "w1", "w2", "w3"], "a"⟩,
       ⟨"Q:b", ["b", "w1", "w2", "w3"], "b"⟩] ++
      [⟨"Q:c", ["c", "w1", "w2", "w3"], "c"⟩] :
        List Question).length = 3) := by
  refine ⟨by decide, by decide, by decide⟩

/-- C5 (amended): `get_questions` splits the context on the
sentence-terminal characters '.', '!', '?', strips every fragment and
discards the empty ones, then invokes the single-run pipeline once per
remaining fragment sequentially in fragment order, threading the store
state; the returned data is the list of the runs' QuestionSets in fragment
order — one element per run (a nested list), not their flattened
concatenation. -/
theorem runSplit_per_fragment (m : Models) (request : ModelInput) (fs : FS) :
    get_questions m request fs =
      runSentences m request.uid request.name
        (splitSentences request.context) fs ∧
    splitSentences request.context =
      ((splitChars isSentenceDelim request.context.data).map
          (fun l => pyStrip ⟨l⟩)).filter (fun s => s ≠ "") ∧
    (∀ frags fs2 outs,
      (runSentences m request.uid request.name frags fs2).1 = .ok outs →
      outs.length = frags.length) ∧
    (∀ s rest fs2,
      runSentences m request.uid request.name (s :: rest) fs2 =
        match process_request m ⟨s, request.uid, request.name⟩ fs2 with
        | (.error e, fs3) => (.error e, fs3)
        | (.ok r, fs3) =>
            match runSentences m request.uid request.name rest fs3 with
            | (.error e, fs4) => (.error e, fs4)
            | (.ok rs, fs4) => (.ok (r :: rs), fs4)) ∧
    splitSentences "The sky is blue. Water boils at 100 degrees." =
      ["The sky is blue", "Water boils at 100 degrees"] := by
  refine ⟨rfl, ?_, runSentences_length m request.uid request.name,
    fun s rest fs2 => rfl, by decide⟩
  rw [splitSentences, splitOnDelims, List.map_map]
  rfl

/-- Witness for C5 at the spec's scenario context: the run returns one
QuestionSet per fragment, two in total. -/
theorem runSplit_per_fragment_witness :
    (runSentences scenarioModels "u" "t"
        (splitSentences "The sky is blue. Water boils at 100 degrees.")
        fs0).1 = .ok [c5run1, c5run2] ∧
    ([c5run1, c5run2] : List (List Question)).length =
      (splitSentences "The sky is blue. Water boils at 100 degrees.").length
      := by
  have hrun : (runSentences scenarioModels "u" "t"
      (splitSentences "The sky is blue. Water boils at 100 degrees.")
      fs0).1 = .ok [c5run1, c5run2] := by decide
  refine ⟨hrun, ?_⟩
  exact (runSplit_per_fragment scenarioModels
    ⟨"The sky is blue. Water boils at 100 degrees.", "u", "t"⟩ fs0).2.2.1
    (splitSentences "The sky is blue. Water boils at 100 degrees.") fs0
    [c5run1, c5run2] hrun

/-- Witness for C1 at a concrete verifier: the export endpoint runs its body
with no credential while a protected endpoint rejects a non-bearer scheme. -/
theorem export_endpoints_unauthenticated_witness :
    dispatch (fun _ => false) "export-questions" none =
      HandlerOutcome.bodyRan ∧
    dispatch (fun _ => false) "rating-questions" (some ⟨"Basic", "tok"⟩) =
      HandlerOutcome.rejected 403 "Invalid authentication scheme." := by
  have h := export_endpoints_unauthenticated (fun _ => false)
  exact ⟨h.1, h.2.2.2.2.2.2.2.2.2.2.2 "rating-questions" "tok" rfl⟩
